import Mathlib

/-!
Verification of the sandboxed file-share service (`server.py`).

The service is a Flask application confining all filesystem operations to a
single sandbox directory (`SHARE_FOLDER`).  This file gives a shallow
embedding of its core functions:

* `get_safe_path`, `get_folder_depth` — the pure path layer;
* `create_folder`, `upload_files`, `move_item` — the mutation endpoints,
  modelled over an explicit filesystem state (association list from absolute
  path to entry);
* `broadcast_change` — the SSE fan-out over the list of bounded client queues.

Python strings are modelled as lists of characters (`PyStr`).  The POSIX
path helpers used by the source (`os.path.normpath`, `os.path.join`,
`os.path.split`, `os.path.relpath`, `os.makedirs`) are translated from the
CPython `posixpath` / `os` implementations; `secure_filename` is translated
from werkzeug (exact on ASCII input: the initial NFKD-normalise +
ascii-encode-ignore step, which is the identity on ASCII, is modelled as
dropping non-ASCII characters).  `SHARE_FOLDER` is computed at process start
from the script location, so it is a parameter `root` of every definition.
-/

/-- Python strings, modelled as lists of characters. -/
abbrev PyStr := List Char

/-- Embed a Lean string literal as a `PyStr`. -/
def pyStr (s : String) : PyStr := s.toList

/-- Python `s.strip(chars)`: remove leading and trailing characters drawn
from `chars`. -/
def pyStrip (chars : PyStr) (s : PyStr) : PyStr :=
  ((s.dropWhile (fun c => chars.contains c)).reverse.dropWhile
    (fun c => chars.contains c)).reverse

/-- Split a character list at every character satisfying `p`, keeping empty
pieces — the semantics of Python `str.split(sep)` for a one-character
separator when `p` tests equality with that separator. -/
def splitP (p : Char → Bool) : PyStr → List PyStr
  | [] => [[]]
  | c :: rest =>
    if p c then [] :: splitP p rest
    else
      match splitP p rest with
      | [] => [[c]]
      | g :: gs => (c :: g) :: gs

/-- Python `s.split(sep)` for a single-character separator `sep`. -/
def splitChar (sep : Char) (s : PyStr) : List PyStr :=
  splitP (fun c => c == sep) s

/-- Python `sep.join(pieces)`. -/
def sepJoin (sep : PyStr) : List PyStr → PyStr
  | [] => []
  | [s] => s
  | s :: rest => s ++ sep ++ sepJoin sep rest

/-- CPython `posixpath.split(p)`: split into `(head, tail)` at the last
separator; the head keeps no trailing separators unless it is all
separators. -/
def posixSplit (p : PyStr) : PyStr × PyStr :=
  let k := (p.reverse.takeWhile (fun c => c ≠ '/')).length
  let i := p.length - k
  let head := p.take i
  let tail := p.drop i
  let head :=
    if head ≠ [] ∧ head.any (fun c => c ≠ '/') then
      (head.reverse.dropWhile (fun c => c = '/')).reverse
    else head
  (head, tail)

/-- CPython `posixpath.basename`. -/
def pyBasename (p : PyStr) : PyStr := (posixSplit p).2

/-- CPython `posixpath.dirname`. -/
def pyDirname (p : PyStr) : PyStr := (posixSplit p).1

/-- CPython `posixpath.join(a, b)` for two arguments. -/
def pyJoin (a b : PyStr) : PyStr :=
  if (pyStr "/").isPrefixOf b then b
  else if a = [] ∨ a.getLast? = some '/' then a ++ b
  else a ++ '/' :: b

/-- One step of the component loop inside `posixpath.normpath`:
empty and `.` components are dropped, `..` pops the previous component
unless there is nothing to pop (at the root, or below the start of a
relative path). -/
def normStep (initialSlashes : Nat) (acc : List PyStr) (comp : PyStr) :
    List PyStr :=
  if comp = [] ∨ comp = pyStr "." then acc
  else if comp ≠ pyStr ".." ∨ (initialSlashes = 0 ∧ acc = []) ∨
      (acc ≠ [] ∧ acc.getLast? = some (pyStr "..")) then
    acc ++ [comp]
  else if acc ≠ [] then acc.dropLast
  else acc

/-- CPython `posixpath.normpath`. -/
def normpath (path : PyStr) : PyStr :=
  if path = [] then pyStr "."
  else
    let initialSlashes : Nat :=
      if (pyStr "/").isPrefixOf path then
        if (pyStr "//").isPrefixOf path ∧ ¬ (pyStr "///").isPrefixOf path
        then 2 else 1
      else 0
    let comps := splitChar '/' path
    let newComps := comps.foldl (normStep initialSlashes) []
    let out := List.replicate initialSlashes '/' ++ sepJoin (pyStr "/") newComps
    if out = [] then pyStr "." else out

/-- `get_safe_path` from `server.py` (lines 39–52): strip surrounding
separators from the client path, join it to the sandbox root, normalize, and
accept exactly when the result has the root as a *string* prefix. -/
def get_safe_path (root subpath : PyStr) : Option PyStr :=
  let target :=
    if subpath ≠ [] then normpath (pyJoin root (pyStrip (pyStr "/") subpath))
    else root
  if root.isPrefixOf target = false then none else some target

/-- `get_folder_depth` from `server.py` (lines 55–63): strip surrounding
separators and count the pieces of a `'/'`-split (empty interior pieces
included, exactly as Python `str.split('/')` produces them). -/
def get_folder_depth (subpath : PyStr) : Nat :=
  if subpath = [] then 0
  else
    let clean := pyStrip (pyStr "/") subpath
    if clean = [] then 0 else (splitChar '/' clean).length

/-- `MAX_FOLDER_DEPTH` from `server.py` (line 24). -/
def MAX_FOLDER_DEPTH : Nat := 5

/-- Python `str.isspace` members used by `str.split()` (ASCII range). -/
def pyIsspace (c : Char) : Bool :=
  c = ' ' ∨ c = '\t' ∨ c = '\n' ∨ c = '\r' ∨ c = '\x0b' ∨ c = '\x0c'

/-- Python `str.split()` with no argument: split on whitespace runs,
discarding empty pieces. -/
def splitWs (s : PyStr) : List PyStr :=
  (splitP pyIsspace s).filter (fun g => g ≠ [])

/-- The character class kept by werkzeug's filename regex
`[^A-Za-z0-9_.-]` (which deletes everything else). -/
def filenameChar (c : Char) : Bool :=
  c.isAlphanum ∨ c = '_' ∨ c = '.' ∨ c = '-'

/-- werkzeug `secure_filename`: ASCII-fold, turn path separators into
spaces, join the whitespace-split pieces with underscores, delete characters
outside `[A-Za-z0-9_.-]`, and strip surrounding dots and underscores.
Faithful to the werkzeug source on ASCII input (the NFKD + ascii
encode/ignore step is modelled as dropping non-ASCII characters). -/
def secure_filename (filename : PyStr) : PyStr :=
  let s := filename.filter (fun c => c.toNat < 128)
  let s := s.map (fun c => if c = '/' then ' ' else c)
  let s := sepJoin (pyStr "_") (splitWs s)
  let s := s.filter filenameChar
  pyStrip (pyStr "._") s

/-- A filesystem entry: a directory, or a regular file with its size in
bytes. -/
inductive Entry
  | dir : Entry
  | file : Nat → Entry
deriving DecidableEq

/-- Filesystem state: a finite map (association list) from absolute path to
entry.  The sandbox root directory is an ordinary entry of the map. -/
abbrev FS := List (PyStr × Entry)

/-- Look up the entry stored at path `p`. -/
def fsLookup (fs : FS) (p : PyStr) : Option Entry :=
  match fs with
  | [] => none
  | e :: rest => if e.1 = p then some e.2 else fsLookup rest p

/-- `os.path.exists`. -/
def pyExists (fs : FS) (p : PyStr) : Bool := (fsLookup fs p).isSome

/-- `os.path.isdir`. -/
def pyIsdir (fs : FS) (p : PyStr) : Bool :=
  match fsLookup fs p with
  | some Entry.dir => true
  | _ => false

/-- `os.path.isfile`. -/
def pyIsfile (fs : FS) (p : PyStr) : Bool :=
  match fsLookup fs p with
  | some (Entry.file _) => true
  | _ => false

/-- `os.remove` / deletion of a single map entry. -/
def fsRemove (fs : FS) (p : PyStr) : FS :=
  fs.filter (fun e => decide (e.1 ≠ p))

/-- Create-or-truncate a map entry (the effect of `open(p, 'wb')` plus the
subsequent writes). -/
def fsSet (fs : FS) (p : PyStr) (ent : Entry) : FS :=
  (p, ent) :: fsRemove fs p

/-- `os.mkdir`: fails (`none`) if the path already exists or its parent is
missing or not a directory; otherwise records the new directory. -/
def mkdir (fs : FS) (p : PyStr) : Option FS :=
  if pyExists fs p then none
  else
    let parent := (posixSplit p).1
    if parent ≠ [] ∧ pyIsdir fs parent = false then none
    else some ((p, Entry.dir) :: fs)

/-- `os.makedirs(name)` (CPython `os.py`, `exist_ok=False`): recursively
create the missing ancestors, swallowing a `FileExistsError` raised by the
recursive call, then `mkdir` the path itself.  Returns the new state and a
success flag (`false` = the final `mkdir` raised); on failure the state
still contains any ancestors created before the failure.  `fuel` bounds the
recursion depth; every call site passes the length of the path, which
strictly exceeds the number of separators and hence the recursion depth. -/
def makedirs : Nat → FS → PyStr → FS × Bool
  | 0, fs, _ => (fs, false)
  | fuel + 1, fs, name =>
    let ht := posixSplit name
    let ht := if ht.2 = [] then posixSplit ht.1 else ht
    if ht.1 ≠ [] ∧ ht.2 ≠ [] ∧ pyExists fs ht.1 = false then
      let r := makedirs fuel fs ht.1
      if ht.2 = pyStr "." then (r.1, true)
      else
        match mkdir r.1 name with
        | some fs2 => (fs2, true)
        | none => (r.1, false)
    else
      match mkdir fs name with
      | some fs2 => (fs2, true)
      | none => (fs, false)

/-- The SSE message string built by `broadcast_change` (line 68). -/
def mkMessage (event_type path : PyStr) : PyStr :=
  pyStr "event: " ++ event_type ++ pyStr "\ndata: " ++ path ++ pyStr "\n\n"

/-- `broadcast_change` from `server.py` (lines 66–81).  The client queues
are bounded (`queue.Queue(maxsize=10)`, line 97); `put_nowait` appends to a
queue with fewer than 10 pending messages and raises `queue.Full` otherwise,
in which case the queue is marked dead; dead queues are then removed from
the subscriber list (removal is by object identity, so it deletes exactly
the marked queues). -/
def broadcast_change (queues : List (List PyStr)) (event_type path : PyStr) :
    List (List PyStr) :=
  ((queues.map (fun q =>
      if q.length < 10 then (q ++ [mkMessage event_type path], false)
      else (q, true))).filter
    (fun qd => qd.2 = false)).map (fun qd => qd.1)

/-- Outcome of `create_folder`, one constructor per HTTP response of the
handler (lines 287–340). -/
inductive CFResult
  | invalidPath
  | parentNotFound
  | parentNotDir
  | nameRequired
  | invalidName
  | depthExceeded
  | conflict
  | ioError
  | created : PyStr → PyStr → CFResult
deriving DecidableEq

/-- Result record of `create_folder`: HTTP-level outcome, filesystem state
after the call, and the `broadcast_change` events emitted. -/
structure CFOut where
  res : CFResult
  fs : FS
  events : List (PyStr × PyStr)
deriving DecidableEq

/-- `create_folder` from `server.py` (lines 287–340).  The handler is
subject to a time-of-check/time-of-use race: the existence checks run
against the filesystem as it is during validation (`fsCheck`) while
`os.makedirs` runs against the filesystem as it is at creation time
(`fsCreate`); passing the same state twice gives the race-free execution.
`body` models `request.get_json()`: `none` = no JSON body, `some none` =
JSON without a `name` key, `some (some nm)` = `{"name": nm}`. -/
def create_folder (root : PyStr) (fsCheck fsCreate : FS) (subpath : PyStr)
    (body : Option (Option PyStr)) : CFOut :=
  match get_safe_path root subpath with
  | none => ⟨CFResult.invalidPath, fsCreate, []⟩
  | some target =>
    if pyExists fsCheck target = false then
      ⟨CFResult.parentNotFound, fsCreate, []⟩
    else if pyIsdir fsCheck target = false then
      ⟨CFResult.parentNotDir, fsCreate, []⟩
    else
      match body with
      | none => ⟨CFResult.nameRequired, fsCreate, []⟩
      | some none => ⟨CFResult.nameRequired, fsCreate, []⟩
      | some (some nm) =>
        let folder_name := secure_filename nm
        if folder_name = [] then ⟨CFResult.invalidName, fsCreate, []⟩
        else
          let new_folder_path :=
            if subpath ≠ [] then subpath ++ '/' :: folder_name
            else folder_name
          if get_folder_depth new_folder_path > MAX_FOLDER_DEPTH then
            ⟨CFResult.depthExceeded, fsCreate, []⟩
          else
            let full := pyJoin target folder_name
            if pyExists fsCheck full then ⟨CFResult.conflict, fsCreate, []⟩
            else
              let r := makedirs full.length fsCreate full
              if r.2 then
                ⟨CFResult.created folder_name new_folder_path, r.1,
                  [(pyStr "file_change", subpath)]⟩
              else ⟨CFResult.ioError, r.1, []⟩

/-- One incoming multipart file of an upload request, together with the
outcome of its disk write: `filename` is `file.filename` (empty = falsy),
`writeRaises` says whether the chunked write block raises, `leavesPartial`
whether that failed attempt leaves the path on disk, `bytesWritten` the
count the handler accumulated, and `persistedSize` what `os.path.getsize`
reports after a completed write. -/
structure UploadFile where
  filename : PyStr
  writeRaises : Bool
  leavesPartial : Bool
  bytesWritten : Nat
  persistedSize : Nat
deriving DecidableEq

/-- The body of the `for file in files` loop of `upload_files`
(lines 209–241), as one step of a fold over `(fs, uploaded, errors)`.
Error messages carry the per-file prefix of the source; the interpolated
exception text and sizes are abstracted. -/
def uploadStep (target : PyStr) (st : FS × List PyStr × List PyStr)
    (f : UploadFile) : FS × List PyStr × List PyStr :=
  let fs := st.1
  let uploaded := st.2.1
  let errors := st.2.2
  if f.filename = [] then (fs, uploaded, errors)
  else
    let filename := secure_filename f.filename
    if filename = [] then (fs, uploaded, errors)
    else
      let file_path := pyJoin target filename
      if f.writeRaises then
        let fs1 :=
          if f.leavesPartial then fsSet fs file_path (Entry.file f.bytesWritten)
          else fs
        let fs2 := if pyExists fs1 file_path then fsRemove fs1 file_path else fs1
        (fs2, uploaded, errors ++ [filename ++ pyStr ": write failed"])
      else
        let fs1 := fsSet fs file_path (Entry.file f.persistedSize)
        if f.persistedSize ≠ f.bytesWritten then
          (fsRemove fs1 file_path, uploaded,
            errors ++ [filename ++ pyStr ": size verification failed"])
        else (fs1, uploaded ++ [filename], errors)

/-- Result record of `upload_files`: HTTP status, the `success` flag of the
JSON result (meaningful on the aggregate-result path), the uploaded names,
their count, the per-file error list, the final filesystem, and the
`broadcast_change` events emitted. -/
structure UploadOut where
  status : Nat
  success : Bool
  uploaded : List PyStr
  count : Nat
  errors : List PyStr
  fs : FS
  events : List (PyStr × PyStr)
deriving DecidableEq

/-- `upload_files` from `server.py` (lines 188–260).  `hasFiles` models
`'files' in request.files`. -/
def upload_files (root : PyStr) (fs : FS) (subpath : PyStr) (hasFiles : Bool)
    (files : List UploadFile) : UploadOut :=
  match get_safe_path root subpath with
  | none => ⟨403, false, [], 0, [], fs, []⟩
  | some target =>
    if pyExists fs target = false then ⟨404, false, [], 0, [], fs, []⟩
    else if pyIsdir fs target = false then ⟨400, false, [], 0, [], fs, []⟩
    else if hasFiles = false then ⟨400, false, [], 0, [], fs, []⟩
    else
      let r := files.foldl (uploadStep target) (fs, [], [])
      let uploaded := r.2.1
      let errors := r.2.2
      let events :=
        if uploaded ≠ [] then [(pyStr "file_change", subpath)] else []
      let status := if errors ≠ [] ∧ uploaded = [] then 500 else 200
      ⟨status, decide (errors = []), uploaded, uploaded.length, errors, r.1,
        events⟩

/-- List-wise common prefix length, as used by `posixpath.relpath` via
`commonprefix`. -/
def commonPrefixLen : List PyStr → List PyStr → Nat
  | a :: as, b :: bs => if a = b then commonPrefixLen as bs + 1 else 0
  | _, _ => 0

/-- CPython `posixpath.relpath(path, start)` for absolute arguments
(`abspath` reduces to `normpath` on absolute paths). -/
def relpath (path start : PyStr) : PyStr :=
  let pl := (splitChar '/' (normpath path)).filter (fun c => c ≠ [])
  let sl := (splitChar '/' (normpath start)).filter (fun c => c ≠ [])
  let i := commonPrefixLen sl pl
  let rel := List.replicate (sl.length - i) (pyStr "..") ++ pl.drop i
  if rel = [] then pyStr "." else sepJoin (pyStr "/") rel

/-- `shutil.move` of `src` (which exists) to the non-existing `dst`: on one
filesystem this is a rename carrying the whole subtree along. -/
def shutilMove (fs : FS) (src dst : PyStr) : FS :=
  fs.map (fun e =>
    if e.1 = src then (dst, e.2)
    else if (src ++ pyStr "/").isPrefixOf e.1 then
      (dst ++ e.1.drop src.length, e.2)
    else e)

/-- Outcome of `move_item`, one constructor per HTTP response of the
handler (lines 416–484). -/
inductive MvResult
  | invalidSource
  | sourceNotFound
  | cannotMoveRoot
  | destRequired
  | invalidDest
  | destNotFound
  | destNotDir
  | conflict
  | intoItself
  | depthExceeded
  | moved : PyStr → MvResult
deriving DecidableEq

/-- Result record of `move_item`. -/
structure MvOut where
  res : MvResult
  fs : FS
  events : List (PyStr × PyStr)
deriving DecidableEq

/-- `move_item` from `server.py` (lines 416–484).  `body` models
`request.get_json()` as for `create_folder`, with the `destination` key. -/
def move_item (root : PyStr) (fs : FS) (subpath : PyStr)
    (body : Option (Option PyStr)) : MvOut :=
  match get_safe_path root subpath with
  | none => ⟨MvResult.invalidSource, fs, []⟩
  | some source_path =>
    if pyExists fs source_path = false then ⟨MvResult.sourceNotFound, fs, []⟩
    else if source_path = root then ⟨MvResult.cannotMoveRoot, fs, []⟩
    else
      match body with
      | none => ⟨MvResult.destRequired, fs, []⟩
      | some none => ⟨MvResult.destRequired, fs, []⟩
      | some (some dest_subpath) =>
        match get_safe_path root dest_subpath with
        | none => ⟨MvResult.invalidDest, fs, []⟩
        | some dest_path =>
          if pyExists fs dest_path = false then ⟨MvResult.destNotFound, fs, []⟩
          else if pyIsdir fs dest_path = false then ⟨MvResult.destNotDir, fs, []⟩
          else
            let item_name := pyBasename source_path
            let new_path := pyJoin dest_path item_name
            if pyExists fs new_path then ⟨MvResult.conflict, fs, []⟩
            else if pyIsdir fs source_path ∧ source_path.isPrefixOf dest_path
                then ⟨MvResult.intoItself, fs, []⟩
            else if pyIsdir fs source_path ∧
                get_folder_depth (relpath new_path root) > MAX_FOLDER_DEPTH then
              ⟨MvResult.depthExceeded, fs, []⟩
            else
              let fs2 := shutilMove fs source_path new_path
              let source_parent :=
                if subpath.contains '/' then pyDirname subpath else []
              ⟨MvResult.moved (relpath new_path root), fs2,
                [(pyStr "file_change", source_parent),
                 (pyStr "file_change", dest_subpath)]⟩

/-- A representative sandbox root for the concrete executions below. -/
def demoRoot : PyStr := pyStr "/srv/sf"

/-- A directory entry under `demoRoot`. -/
def demoDir (s : String) : PyStr × Entry := (demoRoot ++ pyStr s, Entry.dir)

/-- Sandbox with directory `a`, as seen by the validation checks of
`create_folder` before `a` vanishes. -/
def fsBeforeVanish : FS := [(demoRoot, Entry.dir), demoDir "/a"]

/-- The same sandbox after directory `a` vanished. -/
def fsAfterVanish : FS := [(demoRoot, Entry.dir)]

/-- Sandbox with the chain `a/b/c/d` (deepest directory at depth 4). -/
def fsChain4 : FS :=
  [(demoRoot, Entry.dir), demoDir "/a", demoDir "/a/b", demoDir "/a/b/c",
   demoDir "/a/b/c/d"]

/-- Sandbox with the chain `a/b/c/d/e` (deepest directory at depth 5). -/
def fsChain5 : FS := fsChain4 ++ [demoDir "/a/b/c/d/e"]

/-- Sandbox with directories `a`, `a/b` and an occupant `a/b/a`. -/
def fsMoveConflict : FS :=
  [(demoRoot, Entry.dir), demoDir "/a", demoDir "/a/b", demoDir "/a/b/a"]

/-- Sandbox with directories `a` and `a/b`. -/
def fsMoveNested : FS := [(demoRoot, Entry.dir), demoDir "/a", demoDir "/a/b"]

/-- Sandbox with sibling directories `a` and `ab`. -/
def fsSibling : FS := [(demoRoot, Entry.dir), demoDir "/a", demoDir "/ab"]

/-- A well-formed path segment: nonempty, not `.` or `..`, separator-free.
An absolute normalized path that is not `/` is `'/'` followed by a
`'/'`-join of such segments — the shape `SHARE_FOLDER` has. -/
def goodSeg (t : PyStr) : Prop :=
  t ≠ [] ∧ t ≠ pyStr "." ∧ t ≠ pyStr ".." ∧ ∀ c ∈ t, c ≠ '/'

instance (t : PyStr) : Decidable (goodSeg t) := by
  unfold goodSeg
  infer_instance

/-- The components of `s` that survive normalization when no `..` is
present: empty and `.` components are dropped. -/
def cleanComps (s : PyStr) : List PyStr :=
  (splitChar '/' s).filter (fun c => decide (¬(c = [] ∨ c = pyStr ".")))

/-! ### Helper lemmas about the string primitives -/

theorem splitP_ne_nil (p : Char → Bool) (l : PyStr) : splitP p l ≠ [] := by
  cases l with
  | nil => simp [splitP]
  | cons c rest =>
    simp only [splitP]
    split
    · simp
    · split <;> simp_all

theorem splitP_append_sep (p : Char → Bool) (c : Char) (hc : p c = true) :
    ∀ (a b : PyStr), splitP p (a ++ c :: b) = splitP p a ++ splitP p b := by
  intro a
  induction a with
  | nil => intro b; simp [splitP, hc]
  | cons d a ih =>
    intro b
    cases hd : p d with
    | true => simp [splitP, hd, ih]
    | false =>
      cases h : splitP p a with
      | nil => exact absurd h (splitP_ne_nil p a)
      | cons g gs =>
        have h2 : splitP p (a ++ c :: b) = g :: (gs ++ splitP p b) := by
          rw [ih b, h]
          rfl
        simp [splitP, hd, h2, h]

theorem splitP_no_sep (p : Char → Bool) :
    ∀ (l : PyStr), (∀ c ∈ l, p c = false) → splitP p l = [l] := by
  intro l
  induction l with
  | nil => intro _; rfl
  | cons c rest ih =>
    intro h
    have hc := h c (by simp)
    have hr := ih (fun d hd => h d (by simp [hd]))
    simp [splitP, hc, hr]

theorem splitP_length (p : Char → Bool) :
    ∀ (l : PyStr), (splitP p l).length = l.countP p + 1 := by
  intro l
  induction l with
  | nil => rfl
  | cons c rest ih =>
    cases hc : p c with
    | true => simp [splitP, hc, ih, List.countP_cons]
    | false =>
      simp only [splitP, hc]
      cases h : splitP p rest with
      | nil => exact absurd h (splitP_ne_nil p rest)
      | cons g gs =>
        have := ih
        rw [h] at this
        simp [List.countP_cons, hc, ← this]

theorem sepJoin_cons (sep s : PyStr) (rest : List PyStr) (h : rest ≠ []) :
    sepJoin sep (s :: rest) = s ++ sep ++ sepJoin sep rest := by
  cases rest with
  | nil => exact absurd rfl h
  | cons t ts => rfl

theorem sepJoin_ne_nil (sep : PyStr) :
    ∀ (segs : List PyStr), segs ≠ [] → (∀ s ∈ segs, s ≠ []) →
    sepJoin sep segs ≠ [] := by
  intro segs
  induction segs with
  | nil => intro h _; exact absurd rfl h
  | cons s rest _ =>
    intro _ hall
    cases rest with
    | nil => simpa [sepJoin] using hall s (by simp)
    | cons t ts =>
      rw [sepJoin_cons _ _ _ (by simp)]
      have hs := hall s (by simp)
      simp [List.append_eq_nil, hs]

theorem sepJoin_append (sep : PyStr) :
    ∀ (a b : List PyStr), a ≠ [] → b ≠ [] →
    sepJoin sep (a ++ b) = sepJoin sep a ++ sep ++ sepJoin sep b := by
  intro a
  induction a with
  | nil => intro b h _; exact absurd rfl h
  | cons s as ih =>
    intro b _ hb
    cases as with
    | nil => simp [sepJoin_cons _ _ _ hb, sepJoin]
    | cons t ts =>
      rw [List.cons_append, sepJoin_cons _ _ _ (by simp),
        sepJoin_cons _ _ _ (by simp), ih _ (by simp) hb]
      simp [List.append_assoc]

theorem splitP_sepJoin (p : Char → Bool) (x : Char) (hx : p x = true) :
    ∀ (segs : List PyStr), segs ≠ [] → (∀ s ∈ segs, ∀ c ∈ s, p c = false) →
    splitP p (sepJoin [x] segs) = segs := by
  intro segs
  induction segs with
  | nil => intro h _; exact absurd rfl h
  | cons s rest ih =>
    intro _ hall
    cases rest with
    | nil => simpa [sepJoin] using splitP_no_sep p s (hall s (by simp))
    | cons t ts =>
      rw [sepJoin_cons _ _ _ (by simp)]
      have he : s ++ [x] ++ sepJoin [x] (t :: ts) =
          s ++ x :: sepJoin [x] (t :: ts) := by simp
      rw [he, splitP_append_sep p x hx s _,
        splitP_no_sep p s (hall s (by simp)),
        ih (by simp) (fun u hu => hall u (by simp [hu]))]
      rfl

theorem sepJoin_head? (sep s : PyStr) (rest : List PyStr) (hs : s ≠ []) :
    (sepJoin sep (s :: rest)).head? = s.head? := by
  cases rest with
  | nil => rfl
  | cons t ts =>
    rw [sepJoin_cons _ _ _ (by simp)]
    cases s with
    | nil => exact absurd rfl hs
    | cons c cs => simp

theorem sepJoin_getLast? (sep : PyStr) :
    ∀ (segs : List PyStr), segs ≠ [] → (∀ s ∈ segs, s ≠ []) →
    ∃ t ∈ segs, (sepJoin sep segs).getLast? = t.getLast? := by
  intro segs
  induction segs with
  | nil => intro h _; exact absurd rfl h
  | cons s rest ih =>
    intro _ hall
    cases rest with
    | nil => exact ⟨s, by simp, rfl⟩
    | cons t ts =>
      obtain ⟨u, hu, he⟩ := ih (by simp) (fun v hv => hall v (by simp [hv]))
      refine ⟨u, by simp [hu], ?_⟩
      rw [sepJoin_cons _ _ _ (by simp), List.getLast?_append]
      have hne : sepJoin sep (t :: ts) ≠ [] :=
        sepJoin_ne_nil sep _ (by simp) (fun v hv => hall v (by simp [hv]))
      obtain ⟨w, hw⟩ := Option.isSome_iff_exists.mp (List.getLast?_isSome.mpr hne)
      rw [hw] at he ⊢
      simpa using he

theorem head?_dropWhile (f : Char → Bool) :
    ∀ (l : PyStr) (a : Char), (l.dropWhile f).head? = some a → f a = false := by
  intro l
  induction l with
  | nil => intro a h; simp [List.dropWhile] at h
  | cons c rest ih =>
    intro a h
    cases hc : f c with
    | true =>
      rw [List.dropWhile_cons, if_pos (by simp [hc])] at h
      exact ih a h
    | false =>
      rw [List.dropWhile_cons, if_neg (by simp [hc])] at h
      simp at h
      rw [← h]
      exact hc

theorem pyStrip_head? (chars s : PyStr) (a : Char)
    (h : (pyStrip chars s).head? = some a) : chars.contains a = false := by
  unfold pyStrip at h
  have hsfx : ((s.dropWhile (fun c => chars.contains c)).reverse.dropWhile
      (fun c => chars.contains c)) <:+ (s.dropWhile (fun c => chars.contains c)).reverse :=
    List.dropWhile_suffix _
  have hpre : ((s.dropWhile (fun c => chars.contains c)).reverse.dropWhile
      (fun c => chars.contains c)).reverse <+: (s.dropWhile (fun c => chars.contains c)) := by
    have := List.reverse_prefix.mpr hsfx
    simpa using this
  obtain ⟨u, hu⟩ := hpre
  have hh : (s.dropWhile (fun c => chars.contains c)).head? = some a := by
    rw [← hu, List.head?_append, h]
    rfl
  exact head?_dropWhile _ s a hh

theorem foldl_normStep_no_dotdot (k : Nat) :
    ∀ (comps : List PyStr) (acc : List PyStr), pyStr ".." ∉ comps →
    List.foldl (normStep k) acc comps =
      acc ++ comps.filter (fun c => decide (¬(c = [] ∨ c = pyStr "."))) := by
  intro comps
  induction comps with
  | nil => intro acc _; simp
  | cons c rest ih =>
    intro acc hnd
    have hc : c ≠ pyStr ".." := by
      intro he
      exact hnd (by simp [he])
    have hrest : pyStr ".." ∉ rest := fun hm => hnd (by simp [hm])
    by_cases hskip : c = [] ∨ c = pyStr "."
    · rw [List.foldl_cons]
      have hstep : normStep k acc c = acc := by simp [normStep, hskip]
      rw [hstep, ih _ hrest, List.filter_cons]
      simp [hskip]
    · rw [List.foldl_cons]
      have hstep : normStep k acc c = acc ++ [c] := by
        simp [normStep, hskip, hc]
      rw [hstep, ih _ hrest, List.filter_cons]
      simp [hskip, List.append_assoc]

theorem normpath_rootJoin (rootSegs : List PyStr) (s : PyStr)
    (hne : rootSegs ≠ []) (hseg : ∀ t ∈ rootSegs, goodSeg t)
    (hnodd : pyStr ".." ∉ splitChar '/' s) :
    normpath ('/' :: sepJoin (pyStr "/") rootSegs ++ '/' :: s) =
      '/' :: sepJoin (pyStr "/") (rootSegs ++ cleanComps s) := by
  obtain ⟨r0, rs, rfl⟩ : ∃ r0 rs, rootSegs = r0 :: rs := by
    cases rootSegs with
    | nil => exact absurd rfl hne
    | cons r0 rs => exact ⟨r0, rs, rfl⟩
  obtain ⟨c0, r0t, rfl⟩ : ∃ c0 r0t, r0 = c0 :: r0t := by
    cases r0 with
    | nil => exact absurd rfl (hseg [] (List.mem_cons_self _ _)).1
    | cons c0 r0t => exact ⟨c0, r0t, rfl⟩
  have hc0 : c0 ≠ '/' :=
    (hseg (c0 :: r0t) (List.mem_cons_self _ _)).2.2.2 c0 (List.mem_cons_self _ _)
  have hq : (('/' : Char) == '/') = true := by decide
  -- the head of the joined tail is the head of the first root segment
  have hhead : (sepJoin (pyStr "/") ((c0 :: r0t) :: rs) ++ '/' :: s).head? =
      some c0 := by
    rw [List.head?_append, sepJoin_head? _ _ _ (by simp)]
    rfl
  obtain ⟨tl, htl⟩ : ∃ tl,
      sepJoin (pyStr "/") ((c0 :: r0t) :: rs) ++ '/' :: s = c0 :: tl := by
    cases he : sepJoin (pyStr "/") ((c0 :: r0t) :: rs) ++ '/' :: s with
    | nil => rw [he] at hhead; simp at hhead
    | cons x xs =>
      rw [he] at hhead
      simp at hhead
      exact ⟨xs, by rw [hhead]⟩
  -- initial slashes: exactly one
  have hP1 : (pyStr "/").isPrefixOf
      ('/' :: (sepJoin (pyStr "/") ((c0 :: r0t) :: rs) ++ '/' :: s)) = true := by
    simp [pyStr, List.isPrefixOf]
  have hP2 : (pyStr "//").isPrefixOf
      ('/' :: (sepJoin (pyStr "/") ((c0 :: r0t) :: rs) ++ '/' :: s)) = false := by
    rw [htl]
    simp [pyStr, List.isPrefixOf, hc0]
    intro h
    exact absurd h.symm hc0
  -- the component split of the whole path
  have hsegchars : ∀ t ∈ (c0 :: r0t) :: rs, ∀ c ∈ t, (c == '/') = false := by
    intro t ht c hc
    exact beq_eq_false_iff_ne.mpr ((hseg t ht).2.2.2 c hc)
  have hC : splitChar '/'
      ('/' :: (sepJoin (pyStr "/") ((c0 :: r0t) :: rs) ++ '/' :: s)) =
      [] :: (((c0 :: r0t) :: rs) ++ splitChar '/' s) := by
    unfold splitChar
    have h1 : splitP (fun c => c == '/')
        ('/' :: (sepJoin (pyStr "/") ((c0 :: r0t) :: rs) ++ '/' :: s)) =
        [] :: splitP (fun c => c == '/')
          (sepJoin (pyStr "/") ((c0 :: r0t) :: rs) ++ '/' :: s) := by
      simp [splitP]
    rw [h1, splitP_append_sep (fun c => c == '/') '/' hq]
    rw [show (pyStr "/") = ['/'] from by decide]
    rw [splitP_sepJoin (fun c => c == '/') '/' hq _ (by simp) hsegchars]
  -- the fold appends the root segments and the surviving components of s
  have hplain : ∀ t ∈ (c0 :: r0t) :: rs,
      (fun c => decide (¬(c = [] ∨ c = pyStr "."))) t = true := by
    intro t ht
    have := hseg t ht
    simp [this.1, this.2.1]
  have hnd : pyStr ".." ∉ [] :: (((c0 :: r0t) :: rs) ++ splitChar '/' s) := by
    intro hmem
    rcases List.mem_cons.mp hmem with h | h
    · exact absurd h (by decide)
    · rcases List.mem_append.mp h with h2 | h2
      · exact (hseg _ h2).2.2.1 rfl
      · exact hnodd h2
  have hfold : List.foldl (normStep 1) []
      ([] :: (((c0 :: r0t) :: rs) ++ splitChar '/' s)) =
      ((c0 :: r0t) :: rs) ++ cleanComps s := by
    rw [foldl_normStep_no_dotdot 1 _ _ hnd, List.nil_append, List.filter_cons]
    rw [if_neg (by decide)]
    rw [List.filter_append, List.filter_eq_self.mpr hplain]
    rfl
  -- assemble
  rw [show ('/' :: sepJoin (pyStr "/") ((c0 :: r0t) :: rs) ++ '/' :: s) =
    ('/' :: (sepJoin (pyStr "/") ((c0 :: r0t) :: rs) ++ '/' :: s)) from rfl]
  unfold normpath
  rw [if_neg (by simp)]
  simp only [hP1, hP2, if_true, hC, Bool.false_eq_true, false_and, if_false]
  rw [hfold]
  rw [if_neg (by simp)]
  simp

theorem root_getLast?_ne_slash (rootSegs : List PyStr) (hne : rootSegs ≠ [])
    (hseg : ∀ t ∈ rootSegs, goodSeg t) :
    ('/' :: sepJoin (pyStr "/") rootSegs).getLast? ≠ some '/' := by
  have hj : sepJoin (pyStr "/") rootSegs ≠ [] :=
    sepJoin_ne_nil _ _ hne (fun t ht => (hseg t ht).1)
  obtain ⟨u, hu, he⟩ :=
    sepJoin_getLast? (pyStr "/") rootSegs hne (fun t ht => (hseg t ht).1)
  have hc : ('/' :: sepJoin (pyStr "/") rootSegs).getLast? =
      (sepJoin (pyStr "/") rootSegs).getLast? := by
    rw [show ('/' :: sepJoin (pyStr "/") rootSegs) =
      ['/'] ++ sepJoin (pyStr "/") rootSegs from rfl, List.getLast?_append]
    obtain ⟨w, hw⟩ := Option.isSome_iff_exists.mp (List.getLast?_isSome.mpr hj)
    rw [hw]
    rfl
  rw [hc, he]
  cases hgu : u.getLast? with
  | none => simp
  | some w =>
    have hw := List.mem_of_getLast?_eq_some hgu
    have hne' := (hseg u hu).2.2.2 w hw
    simp [hne']

theorem pyJoin_root (rootSegs : List PyStr) (s : PyStr)
    (hne : rootSegs ≠ []) (hseg : ∀ t ∈ rootSegs, goodSeg t)
    (hs : ∀ c, s.head? = some c → c ≠ '/') :
    pyJoin ('/' :: sepJoin (pyStr "/") rootSegs) s =
      '/' :: sepJoin (pyStr "/") rootSegs ++ '/' :: s := by
  have h1 : (pyStr "/").isPrefixOf s = false := by
    rw [show (pyStr "/") = ['/'] from by decide]
    cases s with
    | nil => rfl
    | cons c cs =>
      have hc : c ≠ '/' := hs c rfl
      simp [List.isPrefixOf]
      intro he
      exact absurd he.symm hc
  have h2 : ¬(('/' :: sepJoin (pyStr "/") rootSegs) = [] ∨
      ('/' :: sepJoin (pyStr "/") rootSegs).getLast? = some '/') := by
    rintro (h | h)
    · exact absurd h (by simp)
    · exact root_getLast?_ne_slash rootSegs hne hseg h
  unfold pyJoin
  rw [if_neg (by simp [h1]), if_neg h2]

theorem fsLookup_fsRemove (fs : FS) (p : PyStr) :
    fsLookup (fsRemove fs p) p = none := by
  induction fs with
  | nil => rfl
  | cons e rest ih =>
    show fsLookup (List.filter (fun x => decide (x.1 ≠ p)) (e :: rest)) p = none
    rw [List.filter_cons]
    by_cases he : e.1 = p
    · rw [if_neg (by simp [he])]
      exact ih
    · rw [if_pos (by simp [he])]
      show (if e.1 = p then some e.2
        else fsLookup (List.filter (fun x => decide (x.1 ≠ p)) rest) p) = none
      rw [if_neg he]
      exact ih

theorem fsLookup_eq_none_of_not_exists (fs : FS) (p : PyStr)
    (h : pyExists fs p = false) : fsLookup fs p = none := by
  unfold pyExists at h
  cases hl : fsLookup fs p with
  | none => rfl
  | some e => rw [hl] at h; simp at h

theorem broadcast_change_eq (queues : List (List PyStr)) (et p : PyStr) :
    broadcast_change queues et p =
      (queues.filter (fun q => decide (q.length < 10))).map
        (fun q => q ++ [mkMessage et p]) := by
  induction queues with
  | nil => rfl
  | cons q qs ih =>
    by_cases hl : q.length < 10
    · simp only [broadcast_change, List.map_cons, if_pos hl,
        List.filter_cons] at ih ⊢
      simp only [decide_eq_true_eq] at ih ⊢
      rw [if_pos trivial, if_pos hl, List.map_cons, ih]
      rfl
    · simp only [broadcast_change, List.map_cons, if_neg hl,
        List.filter_cons] at ih ⊢
      simp only [decide_eq_true_eq] at ih ⊢
      rw [if_neg (by simp), if_neg hl, ih]

/-! ### Claims -/

/-- C1: the spec demands that every accepted path be the sandbox root or a
strict descendant (root + separator prefix).  The code's raw
`target.startswith(SHARE_FOLDER)` check has no separator boundary, so with
sandbox root `/srv/sf` the client path `../sf2/x` is accepted and resolves
to the sibling `/srv/sf2/x`, which is neither the root nor has
root-plus-separator as a prefix: the sandbox is escaped. -/
theorem get_safe_path_sibling_escape :
    get_safe_path (pyStr "/srv/sf") (pyStr "../sf2/x") =
      some (pyStr "/srv/sf2/x") ∧
    pyStr "/srv/sf2/x" ≠ pyStr "/srv/sf" ∧
    ((pyStr "/srv/sf") ++ pyStr "/").isPrefixOf (pyStr "/srv/sf2/x") = false := by
  decide

/-- C2 counterexample: the claim says every path containing a `..` segment
or an absolute prefix is rejected.  The code accepts `a/../b` (which
contains a `..` segment, resolved by normalization to `/srv/sf/b`) and
accepts `/etc/x` (absolute: its leading slash is stripped and it resolves to
`/srv/sf/etc/x`). -/
theorem get_safe_path_accepts_dotdot_and_absolute :
    pyStr ".." ∈ splitChar '/' (pyStrip (pyStr "/") (pyStr "a/../b")) ∧
    get_safe_path (pyStr "/srv/sf") (pyStr "a/../b") =
      some (pyStr "/srv/sf/b") ∧
    (pyStr "/etc/x").head? = some '/' ∧
    get_safe_path (pyStr "/srv/sf") (pyStr "/etc/x") =
      some (pyStr "/srv/sf/etc/x") := by
  decide

/-- C2 (amended): `get_safe_path` does not reject absolute prefixes (leading
separators are stripped) nor `..` segments that normalize back inside the
sandbox; rejection can only involve `..` segments.  Amended claim, proved
here: for any well-formed sandbox root and any client path whose stripped
form contains no `..` segment, `get_safe_path` accepts the path, and the
result is the root or a strict (separator-bounded) descendant. -/
theorem get_safe_path_no_dotdot_within (rootSegs : List PyStr) (sub : PyStr)
    (hne : rootSegs ≠ []) (hseg : ∀ t ∈ rootSegs, goodSeg t)
    (hnodd : pyStr ".." ∉ splitChar '/' (pyStrip (pyStr "/") sub)) :
    ∃ t, get_safe_path ('/' :: sepJoin (pyStr "/") rootSegs) sub = some t ∧
      (t = '/' :: sepJoin (pyStr "/") rootSegs ∨
        (('/' :: sepJoin (pyStr "/") rootSegs) ++ pyStr "/").isPrefixOf t =
          true) := by
  by_cases hsub : sub = []
  · subst hsub
    have hp : ('/' :: sepJoin (pyStr "/") rootSegs).isPrefixOf
        ('/' :: sepJoin (pyStr "/") rootSegs) = true :=
      List.isPrefixOf_iff_prefix.mpr (List.prefix_refl _)
    exact ⟨_, by simp [get_safe_path, hp], Or.inl rfl⟩
  · have hs_head : ∀ c, (pyStrip (pyStr "/") sub).head? = some c → c ≠ '/' := by
      intro c hc hceq
      have h := pyStrip_head? (pyStr "/") sub c hc
      rw [hceq] at h
      exact absurd h (by decide)
    have hjoin := pyJoin_root rootSegs (pyStrip (pyStr "/") sub) hne hseg hs_head
    have hnorm := normpath_rootJoin rootSegs (pyStrip (pyStr "/") sub) hne hseg
      hnodd
    by_cases hcc : cleanComps (pyStrip (pyStr "/") sub) = []
    · have htar : normpath (pyJoin ('/' :: sepJoin (pyStr "/") rootSegs)
          (pyStrip (pyStr "/") sub)) = '/' :: sepJoin (pyStr "/") rootSegs := by
        rw [hjoin, hnorm, hcc, List.append_nil]
      have hp : ('/' :: sepJoin (pyStr "/") rootSegs).isPrefixOf
          ('/' :: sepJoin (pyStr "/") rootSegs) = true :=
        List.isPrefixOf_iff_prefix.mpr (List.prefix_refl _)
      refine ⟨'/' :: sepJoin (pyStr "/") rootSegs, ?_, Or.inl rfl⟩
      simp [get_safe_path, hsub, htar, hp]
    · have htar : normpath (pyJoin ('/' :: sepJoin (pyStr "/") rootSegs)
          (pyStrip (pyStr "/") sub)) =
          (('/' :: sepJoin (pyStr "/") rootSegs) ++ pyStr "/") ++
            sepJoin (pyStr "/") (cleanComps (pyStrip (pyStr "/") sub)) := by
        rw [hjoin, hnorm, sepJoin_append _ _ _ hne hcc]
        rw [show (pyStr "/") = ['/'] from by decide]
        simp
      have hp1 : ('/' :: sepJoin (pyStr "/") rootSegs).isPrefixOf
          ((('/' :: sepJoin (pyStr "/") rootSegs) ++ pyStr "/") ++
            sepJoin (pyStr "/") (cleanComps (pyStrip (pyStr "/") sub))) =
          true := by
        rw [List.isPrefixOf_iff_prefix, List.append_assoc]
        exact List.prefix_append _ _
      have hp2 : (('/' :: sepJoin (pyStr "/") rootSegs) ++ pyStr "/").isPrefixOf
          ((('/' :: sepJoin (pyStr "/") rootSegs) ++ pyStr "/") ++
            sepJoin (pyStr "/") (cleanComps (pyStrip (pyStr "/") sub))) =
          true :=
        List.isPrefixOf_iff_prefix.mpr (List.prefix_append _ _)
      refine ⟨_, ?_, Or.inr hp2⟩
      simp [get_safe_path, hsub, htar, hp1]

/-- C2 witness: with sandbox root `/srv/sf` the absolute, empty-segment,
dot-segment path `/etc//./x` contains no `..` and is accepted, landing
inside the sandbox. -/
theorem get_safe_path_no_dotdot_within_witness :
    ∃ t, get_safe_path ('/' :: sepJoin (pyStr "/") [pyStr "srv", pyStr "sf"])
        (pyStr "/etc//./x") = some t ∧
      (t = '/' :: sepJoin (pyStr "/") [pyStr "srv", pyStr "sf"] ∨
        (('/' :: sepJoin (pyStr "/") [pyStr "srv", pyStr "sf"]) ++
          pyStr "/").isPrefixOf t = true) :=
  get_safe_path_no_dotdot_within [pyStr "srv", pyStr "sf"] (pyStr "/etc//./x")
    (by decide) (by decide) (by decide)

/-- C3: `create_folder` validates the parent against the filesystem at check
time (`fsBeforeVanish`, where directory `a` exists), but creates with
`os.makedirs` against the filesystem at creation time (`fsAfterVanish`,
where `a` has vanished).  Because `makedirs` recreates missing ancestors,
the call silently succeeds — recreating the vanished parent `a` and
creating `a/b` — instead of failing with the required not-found error. -/
theorem create_folder_recreates_vanished_parent :
    pyExists fsAfterVanish (pyStr "/srv/sf/a") = false ∧
    (create_folder demoRoot fsBeforeVanish fsAfterVanish (pyStr "a")
      (some (some (pyStr "b")))).res =
        CFResult.created (pyStr "b") (pyStr "a/b") ∧
    pyExists (create_folder demoRoot fsBeforeVanish fsAfterVanish (pyStr "a")
      (some (some (pyStr "b")))).fs (pyStr "/srv/sf/a") = true ∧
    pyExists (create_folder demoRoot fsBeforeVanish fsAfterVanish (pyStr "a")
      (some (some (pyStr "b")))).fs (pyStr "/srv/sf/a/b") = true := by
  decide

/-- C4 counterexample: the claim says depth is the count of *non-empty*
segments, so `a//b` would have depth 2; `get_folder_depth` counts the empty
interior segment too and returns 3. -/
theorem get_folder_depth_counts_empty_segments :
    get_folder_depth (pyStr "a//b") = 3 ∧
    ((splitChar '/' (pyStrip (pyStr "/") (pyStr "a//b"))).filter
      (fun c => decide (c ≠ []))).length = 2 := by
  decide

/-- C4 (amended): `get_folder_depth` of the empty path is 0 and of `a/b/c`
is 3, but for any path whose stripped form is nonempty the depth is the
number of `'/'` characters in the stripped form plus one — so interior
empty segments produced by repeated separators do contribute to the
depth. -/
theorem get_folder_depth_amended :
    get_folder_depth (pyStr "") = 0 ∧ get_folder_depth (pyStr "a/b/c") = 3 ∧
    ∀ s : PyStr, pyStrip (pyStr "/") s ≠ [] →
      get_folder_depth s = (pyStrip (pyStr "/") s).count '/' + 1 := by
  refine ⟨by decide, by decide, ?_⟩
  intro s hs
  have hsne : s ≠ [] := by
    intro h
    rw [h] at hs
    exact hs rfl
  unfold get_folder_depth
  rw [if_neg hsne]
  show (if pyStrip (pyStr "/") s = [] then 0
    else (splitChar '/' (pyStrip (pyStr "/") s)).length) = _
  rw [if_neg hs]
  unfold splitChar
  rw [splitP_length]
  rfl

/-- C4 witness: at `a//b` the amended formula gives `count '/' = 2`, hence
depth 3. -/
theorem get_folder_depth_amended_witness :
    pyStrip (pyStr "/") (pyStr "a//b") ≠ [] ∧
    get_folder_depth (pyStr "a//b") =
      (pyStrip (pyStr "/") (pyStr "a//b")).count '/' + 1 :=
  ⟨by decide, get_folder_depth_amended.2.2 (pyStr "a//b") (by decide)⟩

/-- C5 counterexample: with directories `a/b/c/d` in place, creating `e`
under the client path `a//b/c/d` (doubled separator) is rejected with
`DepthExceeded` although the prospective child `a//b/c/d/e` has only 5
non-empty segments — exactly `MAX_FOLDER_DEPTH`, which the claim says must
succeed (and no conflicting entry exists). -/
theorem create_folder_depth_false_reject :
    ((splitChar '/' (pyStrip (pyStr "/") (pyStr "a//b/c/d/e"))).filter
      (fun c => decide (c ≠ []))).length = MAX_FOLDER_DEPTH ∧
    pyExists fsChain4 (pyStr "/srv/sf/a/b/c/d/e") = false ∧
    (create_folder demoRoot fsChain4 fsChain4 (pyStr "a//b/c/d")
      (some (some (pyStr "e")))).res = CFResult.depthExceeded := by
  decide

/-- C5 (amended): when validation passes (the parent resolves, exists and is
a directory, and the sanitized name is nonempty), `create_folder` answers
`DepthExceeded` exactly when `get_folder_depth` of the prospective child
path exceeds `MAX_FOLDER_DEPTH` — where `get_folder_depth` counts empty
interior segments too, so for client paths without empty segments this is
the claimed behavior, but doubled separators inflate the computed depth. -/
theorem create_folder_depth_exceeded_iff (root : PyStr) (fsCheck fsCreate : FS)
    (subpath target nm : PyStr)
    (h1 : get_safe_path root subpath = some target)
    (h2 : pyExists fsCheck target = true)
    (h3 : pyIsdir fsCheck target = true)
    (h4 : secure_filename nm ≠ []) :
    ((create_folder root fsCheck fsCreate subpath (some (some nm))).res =
        CFResult.depthExceeded) ↔
      get_folder_depth (if subpath ≠ [] then
        subpath ++ '/' :: secure_filename nm else secure_filename nm) >
        MAX_FOLDER_DEPTH := by
  have hiff : (if subpath ≠ [] then subpath ++ '/' :: secure_filename nm
      else secure_filename nm) =
      (if subpath = [] then secure_filename nm
       else subpath ++ '/' :: secure_filename nm) := by
    by_cases h : subpath = [] <;> simp [h]
  rw [hiff]
  by_cases hd : MAX_FOLDER_DEPTH < get_folder_depth (if subpath = [] then
      secure_filename nm else subpath ++ '/' :: secure_filename nm)
  · simp [create_folder, h1, h2, h3, h4, hd]
  · by_cases hc : pyExists fsCheck (pyJoin target (secure_filename nm)) = true
    · simp [create_folder, h1, h2, h3, h4, hd, hc]
    · have hc' : pyExists fsCheck (pyJoin target (secure_filename nm)) =
          false := by simpa using hc
      cases hr : (makedirs (pyJoin target (secure_filename nm)).length fsCreate
          (pyJoin target (secure_filename nm))).2 with
      | false => simp [create_folder, h1, h2, h3, h4, hd, hc', hr]
      | true => simp [create_folder, h1, h2, h3, h4, hd, hc', hr]

/-- C5 witness: under the existing chain `a/b/c/d/e` (depth 5), creating
`f` would land at depth 6 and is rejected with `DepthExceeded`. -/
theorem create_folder_depth_exceeded_iff_witness :
    (create_folder demoRoot fsChain5 fsChain5 (pyStr "a/b/c/d/e")
      (some (some (pyStr "f")))).res = CFResult.depthExceeded :=
  (create_folder_depth_exceeded_iff demoRoot fsChain5 fsChain5
    (pyStr "a/b/c/d/e") (pyStr "/srv/sf/a/b/c/d/e") (pyStr "f")
    (by decide) (by decide) (by decide) (by decide)).mpr (by decide)

/-- C6: in the upload loop, a file whose write raises or whose persisted
size differs from the bytes written leaves no trace on disk (the partial
file is deleted), appends exactly one per-file error, adds nothing to the
uploaded list, and the fold continues with the remaining files of the
batch. -/
theorem upload_failed_file_cleanup_continues (target : PyStr) (fs : FS)
    (uploaded errors : List PyStr) (f : UploadFile) (rest : List UploadFile)
    (h1 : f.filename ≠ []) (h2 : secure_filename f.filename ≠ [])
    (h3 : f.writeRaises = true ∨ f.persistedSize ≠ f.bytesWritten) :
    fsLookup (uploadStep target (fs, uploaded, errors) f).1
        (pyJoin target (secure_filename f.filename)) = none ∧
    (∃ msg, (uploadStep target (fs, uploaded, errors) f).2.2 =
      errors ++ [msg]) ∧
    (uploadStep target (fs, uploaded, errors) f).2.1 = uploaded ∧
    List.foldl (uploadStep target) (fs, uploaded, errors) (f :: rest) =
      List.foldl (uploadStep target)
        (uploadStep target (fs, uploaded, errors) f) rest := by
  by_cases hw : f.writeRaises = true
  · refine ⟨?_, ⟨secure_filename f.filename ++ pyStr ": write failed", ?_⟩,
      ?_, rfl⟩
    · by_cases hpart : f.leavesPartial = true
      · simp only [uploadStep, h1, h2, hw, hpart, if_neg, if_pos, if_true,
          ite_false, ite_true]
        simp [h1, h2, pyExists, fsSet, fsLookup, fsLookup_fsRemove]
      · have hpart' : f.leavesPartial = false := by simpa using hpart
        by_cases hex : pyExists fs (pyJoin target (secure_filename f.filename)) =
            true
        · simp [uploadStep, h1, h2, hw, hpart', hex, fsLookup_fsRemove]
        · have hex' : pyExists fs
              (pyJoin target (secure_filename f.filename)) = false := by
            simpa using hex
          simp [uploadStep, h1, h2, hw, hpart', hex',
            fsLookup_eq_none_of_not_exists fs _ hex']
    · simp [uploadStep, h1, h2, hw]
    · simp [uploadStep, h1, h2, hw]
  · have hw' : f.writeRaises = false := by simpa using hw
    have h3' : f.persistedSize ≠ f.bytesWritten := by
      rcases h3 with h | h
      · exact absurd h hw
      · exact h
    refine ⟨?_,
      ⟨secure_filename f.filename ++ pyStr ": size verification failed", ?_⟩,
      ?_, rfl⟩
    · simp [uploadStep, h1, h2, hw', h3', fsLookup_fsRemove]
    · simp [uploadStep, h1, h2, hw', h3']
    · simp [uploadStep, h1, h2, hw', h3']

/-- C6 witness: a file reporting 3 persisted bytes for 9 written bytes is
cleaned up, recorded as one error, not counted as uploaded, and the fold
continues. -/
theorem upload_failed_file_cleanup_continues_witness :
    fsLookup (uploadStep demoRoot ([(demoRoot, Entry.dir)], [], [])
        ⟨pyStr "y.txt", false, false, 9, 3⟩).1
      (pyJoin demoRoot (secure_filename (pyStr "y.txt"))) = none ∧
    (∃ msg, (uploadStep demoRoot ([(demoRoot, Entry.dir)], [], [])
      ⟨pyStr "y.txt", false, false, 9, 3⟩).2.2 = ([] : List PyStr) ++ [msg]) ∧
    (uploadStep demoRoot ([(demoRoot, Entry.dir)], [], [])
      ⟨pyStr "y.txt", false, false, 9, 3⟩).2.1 = ([] : List PyStr) ∧
    List.foldl (uploadStep demoRoot) ([(demoRoot, Entry.dir)], [], [])
        (⟨pyStr "y.txt", false, false, 9, 3⟩ :: [⟨pyStr "z.txt", true, true, 4, 0⟩]) =
      List.foldl (uploadStep demoRoot)
        (uploadStep demoRoot ([(demoRoot, Entry.dir)], [], [])
          ⟨pyStr "y.txt", false, false, 9, 3⟩)
        [⟨pyStr "z.txt", true, true, 4, 0⟩] :=
  upload_failed_file_cleanup_continues demoRoot [(demoRoot, Entry.dir)] [] []
    ⟨pyStr "y.txt", false, false, 9, 3⟩ [⟨pyStr "z.txt", true, true, 4, 0⟩]
    (by decide) (by decide) (Or.inr (by decide))

/-- C7: when validation passes, the aggregate upload result reports success
exactly when the per-file error list is empty; an all-failed batch answers
HTTP 500; a mixed batch answers 200 with `success = false` alongside the
error list; and exactly one `file_change` event scoped to the target
directory is emitted when at least one file succeeded, none otherwise. -/
theorem upload_aggregate_result (root : PyStr) (fs : FS)
    (subpath target : PyStr) (files : List UploadFile)
    (h1 : get_safe_path root subpath = some target)
    (h2 : pyExists fs target = true)
    (h3 : pyIsdir fs target = true) :
    ((upload_files root fs subpath true files).success = true ↔
      (upload_files root fs subpath true files).errors = []) ∧
    ((upload_files root fs subpath true files).errors ≠ [] ∧
        (upload_files root fs subpath true files).uploaded = [] →
      (upload_files root fs subpath true files).status = 500) ∧
    ((upload_files root fs subpath true files).uploaded ≠ [] ∧
        (upload_files root fs subpath true files).errors ≠ [] →
      (upload_files root fs subpath true files).status = 200 ∧
        (upload_files root fs subpath true files).success = false) ∧
    (upload_files root fs subpath true files).events =
      (if (upload_files root fs subpath true files).uploaded = [] then []
       else [(pyStr "file_change", subpath)]) := by
  have hu : upload_files root fs subpath true files =
      ⟨if (files.foldl (uploadStep target) (fs, [], [])).2.2 ≠ [] ∧
          (files.foldl (uploadStep target) (fs, [], [])).2.1 = [] then 500
        else 200,
       decide ((files.foldl (uploadStep target) (fs, [], [])).2.2 = []),
       (files.foldl (uploadStep target) (fs, [], [])).2.1,
       (files.foldl (uploadStep target) (fs, [], [])).2.1.length,
       (files.foldl (uploadStep target) (fs, [], [])).2.2,
       (files.foldl (uploadStep target) (fs, [], [])).1,
       if (files.foldl (uploadStep target) (fs, [], [])).2.1 ≠ [] then
         [(pyStr "file_change", subpath)] else []⟩ := by
    simp [upload_files, h1, h2, h3]
  rw [hu]
  generalize files.foldl (uploadStep target) (fs, [], []) = r
  obtain ⟨fs', up, err⟩ := r
  by_cases he : err = [] <;> by_cases hup : up = [] <;>
    simp [he, hup]

/-- C7 witness: a batch with one good file and one truncated file yields
partial success: status 200, `success = false`, one error, and a single
`file_change` event for the (root) target directory. -/
theorem upload_aggregate_result_witness :
    (upload_files demoRoot [(demoRoot, Entry.dir)] (pyStr "") true
        [⟨pyStr "x.txt", false, false, 5, 5⟩,
         ⟨pyStr "y.txt", false, false, 9, 3⟩]).status = 200 ∧
      (upload_files demoRoot [(demoRoot, Entry.dir)] (pyStr "") true
        [⟨pyStr "x.txt", false, false, 5, 5⟩,
         ⟨pyStr "y.txt", false, false, 9, 3⟩]).success = false :=
  (upload_aggregate_result demoRoot [(demoRoot, Entry.dir)] (pyStr "")
    demoRoot [⟨pyStr "x.txt", false, false, 5, 5⟩,
      ⟨pyStr "y.txt", false, false, 9, 3⟩]
    (by decide) (by decide) (by decide)).2.2.1 ⟨by decide, by decide⟩

/-- C8: one `broadcast_change` call delivers the formatted event to exactly
the subscribers whose queue has free space (capacity 10), appending it at
the tail (so per-subscriber FIFO order is preserved, as the two-publish
conjunct shows), and removes every full queue from the subscriber list in
that same call; the publish itself is a total function of the state — it
never waits on a consumer. -/
theorem broadcast_change_spec (queues : List (List PyStr))
    (et p et2 p2 : PyStr) :
    broadcast_change queues et p =
      (queues.filter (fun q => decide (q.length < 10))).map
        (fun q => q ++ [mkMessage et p]) ∧
    (∀ q ∈ queues, q.length < 10 →
      q ++ [mkMessage et p] ∈ broadcast_change queues et p) ∧
    (∀ q ∈ queues, q.length + 2 ≤ 10 →
      q ++ [mkMessage et p, mkMessage et2 p2] ∈
        broadcast_change (broadcast_change queues et p) et2 p2) := by
  refine ⟨broadcast_change_eq queues et p, ?_, ?_⟩
  · intro q hq hl
    rw [broadcast_change_eq]
    exact List.mem_map_of_mem _
      (List.mem_filter.mpr ⟨hq, by simpa using hl⟩)
  · intro q hq hl
    have h1 : q ++ [mkMessage et p] ∈ broadcast_change queues et p := by
      rw [broadcast_change_eq]
      refine List.mem_map_of_mem _ (List.mem_filter.mpr ⟨hq, ?_⟩)
      simp only [decide_eq_true_eq]
      omega
    have h2 : (q ++ [mkMessage et p]) ++ [mkMessage et2 p2] ∈
        broadcast_change (broadcast_change queues et p) et2 p2 := by
      rw [broadcast_change_eq (broadcast_change queues et p) et2 p2]
      refine List.mem_map_of_mem _ (List.mem_filter.mpr ⟨h1, ?_⟩)
      simp only [decide_eq_true_eq, List.length_append, List.length_cons,
        List.length_nil]
      omega
    simpa [List.append_assoc] using h2

/-- C8 witness: with one short queue and one full queue, the short queue
receives the event. -/
theorem broadcast_change_spec_witness :
    [pyStr "x"] ++ [mkMessage (pyStr "file_change") (pyStr "d")] ∈
      broadcast_change [[pyStr "x"], List.replicate 10 (pyStr "q")]
        (pyStr "file_change") (pyStr "d") :=
  (broadcast_change_spec [[pyStr "x"], List.replicate 10 (pyStr "q")]
    (pyStr "file_change") (pyStr "d") (pyStr "e") (pyStr "f")).2.1
    [pyStr "x"] (by decide) (by decide)

/-- C9 counterexample: moving directory `a` into its own subdirectory `a/b`
is claimed to always fail with the move-into-itself error, but when the
destination already contains an entry named `a` (here `a/b/a` exists) the
conflict check fires first and the call fails with `Conflict` instead. -/
theorem move_item_nested_conflict_not_invalid_operation :
    ((pyStr "/srv/sf/a") ++ pyStr "/").isPrefixOf (pyStr "/srv/sf/a/b") =
      true ∧
    (move_item demoRoot fsMoveConflict (pyStr "a")
      (some (some (pyStr "a/b")))).res = MvResult.conflict ∧
    (move_item demoRoot fsMoveConflict (pyStr "a")
      (some (some (pyStr "a/b")))).res ≠ MvResult.intoItself := by
  decide

/-- C9 (amended): when the destination directory is the source directory or
nested inside it, the move is always rejected — with `Conflict` if the
destination already holds an entry named like the source, and with the
move-into-itself error (`InvalidOperation`) otherwise — and in every case
the filesystem is unchanged and no event is emitted: the move never
partially happens. -/
theorem move_item_nested_rejected_no_mutation (root : PyStr) (fs : FS)
    (subpath dest_subpath source_path dest_path : PyStr)
    (h1 : get_safe_path root subpath = some source_path)
    (h2 : pyExists fs source_path = true)
    (h3 : source_path ≠ root)
    (h4 : get_safe_path root dest_subpath = some dest_path)
    (h5 : pyExists fs dest_path = true)
    (h6 : pyIsdir fs dest_path = true)
    (h7 : pyIsdir fs source_path = true)
    (h8 : dest_path = source_path ∨
      (source_path ++ pyStr "/").isPrefixOf dest_path = true) :
    ((move_item root fs subpath (some (some dest_subpath))).res =
        MvResult.conflict ∨
      (move_item root fs subpath (some (some dest_subpath))).res =
        MvResult.intoItself) ∧
    (move_item root fs subpath (some (some dest_subpath))).fs = fs ∧
    (move_item root fs subpath (some (some dest_subpath))).events = [] ∧
    (pyExists fs (pyJoin dest_path (pyBasename source_path)) = false →
      (move_item root fs subpath (some (some dest_subpath))).res =
        MvResult.intoItself) := by
  have hpfx : source_path.isPrefixOf dest_path = true := by
    rcases h8 with h | h
    · rw [h]
      exact List.isPrefixOf_iff_prefix.mpr (List.prefix_refl _)
    · rw [List.isPrefixOf_iff_prefix] at h ⊢
      exact List.IsPrefix.trans (List.prefix_append _ _) h
  by_cases hc : pyExists fs (pyJoin dest_path (pyBasename source_path)) = true
  · have hres : move_item root fs subpath (some (some dest_subpath)) =
        ⟨MvResult.conflict, fs, []⟩ := by
      simp [move_item, h1, h2, h3, h4, h5, h6, hc]
    rw [hres]
    refine ⟨Or.inl rfl, rfl, rfl, ?_⟩
    intro hfalse
    rw [hc] at hfalse
    exact absurd hfalse (by simp)
  · have hc' : pyExists fs (pyJoin dest_path (pyBasename source_path)) =
        false := by simpa using hc
    have hres : move_item root fs subpath (some (some dest_subpath)) =
        ⟨MvResult.intoItself, fs, []⟩ := by
      simp [move_item, h1, h2, h3, h4, h5, h6, hc', h7, hpfx]
    rw [hres]
    exact ⟨Or.inr rfl, rfl, rfl, fun _ => rfl⟩

/-- C9 witness: with directories `a` and `a/b` and no occupant in the
destination, moving `a` into `a/b` is rejected with the move-into-itself
error. -/
theorem move_item_nested_rejected_no_mutation_witness :
    (move_item demoRoot fsMoveNested (pyStr "a")
      (some (some (pyStr "a/b")))).res = MvResult.intoItself :=
  (move_item_nested_rejected_no_mutation demoRoot fsMoveNested (pyStr "a")
    (pyStr "a/b") (pyStr "/srv/sf/a") (pyStr "/srv/sf/a/b")
    (by decide) (by decide) (by decide) (by decide) (by decide) (by decide)
    (by decide) (Or.inr (by decide))).2.2.2 (by decide)

/-- C10: because the self-nesting guard is a raw string-prefix test, the
sibling directories `a` and `ab` — where `ab` is not nested inside `a` but
the resolved path `/srv/sf/ab` extends `/srv/sf/a` as a string — make the
move of `a` into `ab` fail with the move-into-itself error, and nothing is
moved. -/
theorem move_item_sibling_false_positive :
    pyStr "/srv/sf/ab" ≠ pyStr "/srv/sf/a" ∧
    ((pyStr "/srv/sf/a") ++ pyStr "/").isPrefixOf (pyStr "/srv/sf/ab") =
      false ∧
    get_safe_path demoRoot (pyStr "a") = some (pyStr "/srv/sf/a") ∧
    get_safe_path demoRoot (pyStr "ab") = some (pyStr "/srv/sf/ab") ∧
    pyIsdir fsSibling (pyStr "/srv/sf/a") = true ∧
    (move_item demoRoot fsSibling (pyStr "a")
      (some (some (pyStr "ab")))).res = MvResult.intoItself ∧
    (move_item demoRoot fsSibling (pyStr "a")
      (some (some (pyStr "ab")))).fs = fsSibling := by
  decide
